import Mathlib

/-!
Verification of the btc_light ledger core: a shallow embedding of
`src/transactions.py`, `src/block.py` and `src/blockchain.py` in Lean 4,
with theorems settling the specification's claims about transaction
admission, mining, validation, balance derivation and serialization.

Modelling conventions:
* Python `float` amounts are modelled as exact rationals (`Rat`); the
  claims under scrutiny are about the algebraic structure of the code,
  not about rounding.
* `bytes` values (signatures) are lists of bytes (`List (Fin 256)`).
* SHA-256 composed with `json.dumps(..., sort_keys=True)` is abstracted
  as a function `H : BlockData → String` of exactly the fields that are
  serialized into the digest; theorems are universally quantified over it.
* The ECDSA verification outcome is likewise abstracted as a boolean
  function of the data the Python code feeds to it.
* The unbounded `while` loop of `Block.mine_block` is modelled with
  explicit fuel; `none` means the loop has not terminated within the
  fuel (or, where noted, that the Python code raises).
-/

namespace BtcLight

/-- `Transaction` from `src/transactions.py`: sender and recipient are
identity strings (PEM public key text or the literal `"Network"`),
`amount` a number, `signature` an optional byte string. -/
structure Transaction where
  sender_address : String
  recipient_address : String
  amount : Rat
  signature : Option (List (Fin 256))
deriving DecidableEq, Repr

/-- The dictionary produced by `Transaction.to_dict(include_signature=True)`:
the signature is rendered as a lowercase hex string, or null. -/
structure TxDict where
  sender_address : String
  recipient_address : String
  amount : Rat
  signature : Option String
deriving DecidableEq, Repr

/-- The dictionary produced by `Transaction.to_dict(include_signature=False)`
(the payload that is signed and verified): no signature key at all. -/
structure TxCore where
  sender_address : String
  recipient_address : String
  amount : Rat
deriving DecidableEq, Repr

/-- The lowercase hex digit for a nibble, as Python's `bytes.hex()` emits
it: `0`–`9` are code points 48–57, `a`–`f` are 97–102. -/
def hexDigit (n : Fin 16) : Char :=
  Char.ofNat (if n.val < 10 then 48 + n.val else 87 + n.val)

/-- One byte rendered as two lowercase hex characters, as `bytes.hex()`
does byte by byte. -/
def byteHexChars (b : Fin 256) : List Char :=
  [hexDigit ⟨b.val / 16, by omega⟩, hexDigit ⟨b.val % 16, by omega⟩]

/-- Python `bytes.hex()`: the concatenation of the two-digit hex codes of
the bytes, in order. -/
def bytesHex (bs : List (Fin 256)) : String :=
  String.mk (bs.flatMap byteHexChars)

/-- The value of a lowercase hex digit, or `none` for any other character.
(Python's `bytes.fromhex` also accepts uppercase digits and spaces; the
inputs arising in this development are outputs of `bytes.hex()`, which
are plain lowercase.) -/
def hexVal (c : Char) : Option (Fin 16) :=
  if h : 48 ≤ c.toNat ∧ c.toNat ≤ 57 then some ⟨c.toNat - 48, by omega⟩
  else if h2 : 97 ≤ c.toNat ∧ c.toNat ≤ 102 then some ⟨c.toNat - 87, by omega⟩
  else none

/-- Hex characters decoded two at a time into bytes; `none` models the
`ValueError` that `bytes.fromhex` raises on a malformed hex string. -/
def hexCharsToBytes : List Char → Option (List (Fin 256))
  | [] => some []
  | c1 :: c2 :: rest => do
    let hi ← hexVal c1
    let lo ← hexVal c2
    let bs ← hexCharsToBytes rest
    pure (⟨hi.val * 16 + lo.val, by omega⟩ :: bs)
  | [_] => none

/-- Python `bytes.fromhex` on a string. -/
def bytesFromHex (s : String) : Option (List (Fin 256)) :=
  hexCharsToBytes s.data

/-- `Transaction.to_dict()` with `include_signature=True` (the default):
note that Python's `self.signature.hex() if self.signature else None`
maps the empty byte string `b''` to `None` as well, because `b''` is falsy. -/
def Transaction.to_dict (tx : Transaction) : TxDict :=
  { sender_address := tx.sender_address
    recipient_address := tx.recipient_address
    amount := tx.amount
    signature :=
      match tx.signature with
      | none => none
      | some bs => if bs = [] then none else some (bytesHex bs) }

/-- `Transaction.to_dict(include_signature=False)`: the signed payload. -/
def Transaction.to_dict_nosig (tx : Transaction) : TxCore :=
  { sender_address := tx.sender_address
    recipient_address := tx.recipient_address
    amount := tx.amount }

/-- The outcome of the ECDSA check `public_key.verify(signature, data, ...)`
after loading `sender_address` as a PEM public key, abstracted as a
boolean function of the sender identity, the raw signature bytes and the
signed payload. -/
def VerifierFn : Type := String → List (Fin 256) → TxCore → Bool

/-- `Transaction.verify_signature` from `src/transactions.py`, with the
cryptographic check abstracted by `V`: `"Network"` senders are trusted
unconditionally, an absent signature fails, otherwise the signature is
checked against the serialization that excludes the signature field. -/
def Transaction.verify_signature (V : VerifierFn) (tx : Transaction) : Bool :=
  if tx.sender_address = "Network" then true
  else
    match tx.signature with
    | none => false
    | some sig => V tx.sender_address sig tx.to_dict_nosig

/-- `Block` from `src/block.py`. `timestamp` is the ISO-8601 string the
callers store in it; `hash` starts out as the empty string. -/
structure Block where
  index : Nat
  transactions : List Transaction
  timestamp : String
  prev_hash : String
  nonce : Nat
  hash : String
deriving DecidableEq, Repr

/-- The data that `Block.calculate_hash` serializes and digests: exactly
`{index, transactions (as dicts, signature included), timestamp,
prev_hash, nonce}` — the stored `hash` field itself is not part of it. -/
structure BlockData where
  index : Nat
  transactions : List TxDict
  timestamp : String
  prev_hash : String
  nonce : Nat
deriving DecidableEq, Repr

def Block.block_data (b : Block) : BlockData :=
  { index := b.index
    transactions := b.transactions.map Transaction.to_dict
    timestamp := b.timestamp
    prev_hash := b.prev_hash
    nonce := b.nonce }

/-- Abstraction of `sha256(json.dumps(block_data, sort_keys=True)).hexdigest()`:
a deterministic function of the serialized fields. -/
def HashFn : Type := BlockData → String

/-- `Block.calculate_hash` from `src/block.py`. -/
def Block.calculate_hash (H : HashFn) (b : Block) : String :=
  H b.block_data

/-- Python `'0' * difficulty`: the empty string when `difficulty ≤ 0`. -/
def pyTarget (d : Int) : String :=
  String.mk (List.replicate d.toNat '0')

/-- Python `s[:d]`: for `d ≥ 0` the first `d` characters (clamped), for
`d < 0` everything up to `len(s) + d` (clamped at zero). -/
def pySlice (s : String) (d : Int) : String :=
  if 0 ≤ d then String.mk (s.data.take d.toNat)
  else String.mk (s.data.take ((s.length : Int) + d).toNat)

/-- The body of `Block.mine_block`'s `while` loop, with fuel; alongside
the mined block it returns the number of `calculate_hash` calls made.
Each iteration first increments the nonce and then recomputes the hash
from the updated block. -/
def mineAux (H : HashFn) (d : Int) : Nat → Block → Nat → Option (Block × Nat)
  | 0, _, _ => none
  | fuel + 1, b, calls =>
    if pySlice b.hash d = pyTarget d then some (b, calls)
    else
      mineAux H d fuel
        { b with
          nonce := b.nonce + 1
          hash := Block.calculate_hash H { b with nonce := b.nonce + 1 } }
        (calls + 1)

/-- `Block.mine_block` from `src/block.py`: loop until the stored hash's
prefix of length `difficulty` is all zeros. `none` means the loop has
not finished within `fuel` iterations. -/
def Block.mine_block (H : HashFn) (d : Int) (fuel : Nat) (b : Block) :
    Option (Block × Nat) :=
  mineAux H d fuel b 0

/-- `Blockchain` from `src/blockchain.py`. -/
structure Blockchain where
  chain : List Block
  difficulty : Nat
  mempool : List Transaction
  block_reward : Rat
deriving DecidableEq, Repr

/-- The body of `Blockchain.get_balance`'s inner loop: add `amount` where
`recipient_address == address`, subtract where `sender_address == address`
(both updates fire when the two coincide, as in the Python source). -/
def balanceStep (address : String) (balance : Rat) (tx : Transaction) : Rat :=
  let balance :=
    if tx.recipient_address = address then balance + tx.amount else balance
  if tx.sender_address = address then balance - tx.amount else balance

/-- `Blockchain.get_balance`: fold over every transaction of every block
of the chain, starting from `0.0`. The mempool is not consulted. -/
def Blockchain.get_balance (bc : Blockchain) (address : String) : Rat :=
  bc.chain.foldl
    (fun balance b => b.transactions.foldl (balanceStep address) balance)
    0

/-- `Blockchain.add_transaction`: `"Network"` senders are appended to the
mempool unconditionally; otherwise a failed signature check or an
insufficient balance rejects the transaction (the print-and-return
branches of the Python code), and otherwise it is appended. -/
def Blockchain.add_transaction (V : VerifierFn) (bc : Blockchain)
    (tx : Transaction) : Blockchain :=
  if tx.sender_address = "Network" then
    { bc with mempool := bc.mempool ++ [tx] }
  else if ¬ tx.verify_signature V then bc
  else if bc.get_balance tx.sender_address < tx.amount then bc
  else { bc with mempool := bc.mempool ++ [tx] }

/-- The reward transaction that `mine_pending_transactions` constructs:
`Transaction(sender_address="Network", recipient_address=miner_address,
amount=self.block_reward)` (unsigned). -/
def reward_tx (bc : Blockchain) (miner_address : String) : Transaction :=
  { sender_address := "Network"
    recipient_address := miner_address
    amount := bc.block_reward
    signature := none }

/-- `Blockchain.mine_pending_transactions`: build the reward transaction,
run it through `add_transaction`, and unless the mempool is then empty,
mine a block holding a copy of the mempool on top of the latest block
and clear the mempool. `none` models the `IndexError` that
`get_latest_block` raises on an empty chain, or mining fuel exhaustion;
`ts` stands for the `datetime.now(timezone.utc).isoformat()` call. -/
def Blockchain.mine_pending_transactions (H : HashFn) (V : VerifierFn)
    (fuel : Nat) (bc : Blockchain) (miner_address : String) (ts : String) :
    Option Blockchain :=
  let bc1 := bc.add_transaction V (reward_tx bc miner_address)
  if bc1.mempool = [] then some bc1
  else
    match bc1.chain.getLast? with
    | none => none
    | some latest =>
      let new_block : Block :=
        { index := bc1.chain.length
          transactions := bc1.mempool
          timestamp := ts
          prev_hash := latest.hash
          nonce := 0
          hash := "" }
      match new_block.mine_block H (bc1.difficulty : Int) fuel with
      | none => none
      | some (mined, _) =>
        some { bc1 with chain := bc1.chain ++ [mined], mempool := [] }

/-- Python `s.startswith(p)`. -/
def pyStartswith (s p : String) : Bool :=
  p.data.isPrefixOf s.data

/-- The chain-walk of `Blockchain.is_chain_valid` over adjacent pairs
`(prev, cur)`: recompute and compare both stored hashes, then check the
difficulty prefix of the current hash; any failure returns false at once. -/
def validFrom (H : HashFn) (d : Nat) : Block → List Block → Bool
  | _, [] => true
  | prev, cur :: rest =>
    if cur.hash ≠ cur.calculate_hash H then false
    else if prev.hash ≠ prev.calculate_hash H then false
    else if ¬ pyStartswith cur.hash (pyTarget (d : Int)) then false
    else validFrom H d cur rest

/-- `Blockchain.is_chain_valid`: the loop runs over `i in 1..len(chain)`,
so chains of length 0 or 1 are vacuously valid. -/
def Blockchain.is_chain_valid (H : HashFn) (bc : Blockchain) : Bool :=
  match bc.chain with
  | [] => true
  | b :: rest => validFrom H bc.difficulty b rest

/-- The block dictionaries of `Blockchain.to_dict` (and the identical
shape read back by `from_dict`). -/
structure BlockDict where
  index : Nat
  transactions : List TxDict
  timestamp : String
  prev_hash : String
  nonce : Nat
  hash : String
deriving DecidableEq, Repr

/-- The whole serialized ledger of `Blockchain.to_dict`. -/
structure ChainDict where
  chain : List BlockDict
  difficulty : Nat
  mempool : List TxDict
  block_reward : Rat
deriving DecidableEq, Repr

/-- `Blockchain.to_dict`: blocks are serialized with `tx.to_dict()` for
their transactions; the mempool entries are built inline in the Python
source but with exactly the same fields and the same
`tx.signature.hex() if tx.signature else None` rendering, so the same
`Transaction.to_dict` is used here. -/
def Blockchain.to_dict (bc : Blockchain) : ChainDict :=
  { chain := bc.chain.map (fun b =>
      { index := b.index
        transactions := b.transactions.map Transaction.to_dict
        timestamp := b.timestamp
        prev_hash := b.prev_hash
        nonce := b.nonce
        hash := b.hash })
    difficulty := bc.difficulty
    mempool := bc.mempool.map Transaction.to_dict
    block_reward := bc.block_reward }

/-- Reading one serialized transaction back, as both loops of
`Blockchain.from_dict` do: `bytes.fromhex(tx['signature']) if
tx['signature'] else None`, so a null or empty hex string gives no
signature; `none` models the `ValueError` of `bytes.fromhex` on a
malformed hex string. -/
def txFromDict (d : TxDict) : Option Transaction :=
  match d.signature with
  | none => some
      { sender_address := d.sender_address
        recipient_address := d.recipient_address
        amount := d.amount
        signature := none }
  | some s =>
    if s = "" then some
      { sender_address := d.sender_address
        recipient_address := d.recipient_address
        amount := d.amount
        signature := none }
    else
      (bytesFromHex s).map (fun bs =>
        { sender_address := d.sender_address
          recipient_address := d.recipient_address
          amount := d.amount
          signature := some bs })

def blockFromDict (d : BlockDict) : Option Block :=
  (d.transactions.mapM txFromDict).map (fun txs =>
    { index := d.index
      transactions := txs
      timestamp := d.timestamp
      prev_hash := d.prev_hash
      nonce := d.nonce
      hash := d.hash })

/-- `Blockchain.from_dict`. -/
def Blockchain.from_dict (data : ChainDict) : Option Blockchain := do
  let chain ← data.chain.mapM blockFromDict
  let mempool ← data.mempool.mapM txFromDict
  pure
    { chain := chain
      difficulty := data.difficulty
      mempool := mempool
      block_reward := data.block_reward }

/-! ## Mining lemmas -/

theorem calculate_hash_ignores_hash (H : HashFn) (b : Block) (s : String) :
    Block.calculate_hash H { b with hash := s } = b.calculate_hash H := rfl

/-- On success the loop's exit condition holds for the returned block. -/
theorem mineAux_exit (H : HashFn) (d : Int) :
    ∀ (fuel : Nat) (b : Block) (calls : Nat) (b' : Block) (calls' : Nat),
      mineAux H d fuel b calls = some (b', calls') →
      pySlice b'.hash d = pyTarget d := by
  intro fuel
  induction fuel with
  | zero => intro b calls b' calls' h; simp [mineAux] at h
  | succ n ih =>
    intro b calls b' calls' h
    rw [mineAux] at h
    split at h
    · cases h
      assumption
    · exact ih _ _ _ _ h

/-- The loop keeps the stored hash consistent with the block's contents:
if the invariant holds on entry, it holds for the returned block. -/
theorem mineAux_consistent (H : HashFn) (d : Int) :
    ∀ (fuel : Nat) (b : Block) (calls : Nat) (b' : Block) (calls' : Nat),
      b.hash = b.calculate_hash H →
      mineAux H d fuel b calls = some (b', calls') →
      b'.hash = b'.calculate_hash H := by
  intro fuel
  induction fuel with
  | zero => intro b calls b' calls' _ h; simp [mineAux] at h
  | succ n ih =>
    intro b calls b' calls' hinv h
    rw [mineAux] at h
    split at h
    · cases h
      exact hinv
    · exact ih _ _ _ _ rfl h

/-- If the entry check fails, the invariant is established on the first
iteration and so holds for the returned block. -/
theorem mineAux_consistent_of_ne (H : HashFn) (d : Int) (fuel : Nat)
    (b : Block) (calls calls' : Nat) (b' : Block)
    (hne : pySlice b.hash d ≠ pyTarget d)
    (h : mineAux H d fuel b calls = some (b', calls')) :
    b'.hash = b'.calculate_hash H := by
  cases fuel with
  | zero => simp [mineAux] at h
  | succ n =>
    rw [mineAux] at h
    rw [if_neg hne] at h
    exact mineAux_consistent H d n _ _ _ _ rfl h

/-- Mining changes only the nonce and the hash. -/
theorem mineAux_fields (H : HashFn) (d : Int) :
    ∀ (fuel : Nat) (b : Block) (calls : Nat) (b' : Block) (calls' : Nat),
      mineAux H d fuel b calls = some (b', calls') →
      b'.index = b.index ∧ b'.transactions = b.transactions ∧
      b'.timestamp = b.timestamp ∧ b'.prev_hash = b.prev_hash := by
  intro fuel
  induction fuel with
  | zero => intro b calls b' calls' h; simp [mineAux] at h
  | succ n ih =>
    intro b calls b' calls' h
    rw [mineAux] at h
    split at h
    · cases h
      exact ⟨rfl, rfl, rfl, rfl⟩
    · have hrec := ih
        { b with
          nonce := b.nonce + 1
          hash := Block.calculate_hash H { b with nonce := b.nonce + 1 } }
        (calls + 1) b' calls' h
      simpa using hrec

/-- C1, first conjunct, for nonnegative difficulty: the returned hash
starts with at least `d` zero hex characters. -/
theorem mine_block_leading_zeros (H : HashFn) (d : Int) (hd : 0 ≤ d)
    (fuel : Nat) (b b' : Block) (calls : Nat)
    (h : b.mine_block H d fuel = some (b', calls)) :
    b'.hash.data.take d.toNat = List.replicate d.toNat '0' := by
  have hexit := mineAux_exit H d fuel b 0 b' calls h
  rw [pySlice, if_pos hd, pyTarget] at hexit
  exact congrArg String.data hexit

/-! ## Concrete instances used to evaluate the mining claims -/

/-- A concrete digest function whose output has no leading zero. -/
def demoHash : HashFn := fun _ => "deadbeef"

/-- A concrete digest function whose outputs satisfy small difficulties. -/
def zeroHash : HashFn := fun _ => "00000000"

/-- A freshly constructed block: `hash=""`, `nonce=0`, as `Block.__init__`
leaves it. -/
def freshBlock : Block :=
  { index := 0
    transactions := []
    timestamp := "2024-01-01T00:00:00+00:00"
    prev_hash := "0"
    nonce := 0
    hash := "" }

/-- The block `freshBlock` becomes after one mining iteration under
`zeroHash`. -/
def demoMined : Block :=
  { freshBlock with nonce := 1, hash := "00000000" }

/-- C1 (amended): after `mine_block(B, d)` returns, `B.hash` has at least
`d` leading zero hex characters; and whenever the stored hash did not
already satisfy the difficulty test on entry (in particular for every
freshly constructed block at `d ≥ 1`), `B.hash` equals
`B.calculate_hash()`. -/
theorem C1_mine_block_postcondition (H : HashFn) (d : Int) (hd : 0 ≤ d)
    (fuel : Nat) (b b' : Block) (calls : Nat)
    (h : b.mine_block H d fuel = some (b', calls)) :
    b'.hash.data.take d.toNat = List.replicate d.toNat '0' ∧
    (pySlice b.hash d ≠ pyTarget d → b'.hash = b'.calculate_hash H) :=
  ⟨mine_block_leading_zeros H d hd fuel b b' calls h,
   fun hne => mineAux_consistent_of_ne H d fuel b 0 calls b' hne h⟩

theorem C1_witness :
    ((0 : Int) ≤ 1 ∧
      Block.mine_block zeroHash 1 2 freshBlock = some (demoMined, 1)) ∧
    (demoMined.hash.data.take (1 : Int).toNat =
        List.replicate (1 : Int).toNat '0' ∧
      (pySlice freshBlock.hash 1 ≠ pyTarget 1 →
        demoMined.hash = demoMined.calculate_hash zeroHash)) :=
  ⟨⟨by decide, by decide⟩,
   C1_mine_block_postcondition zeroHash 1 (by decide) 2 freshBlock demoMined 1
     (by decide)⟩

/-- C1 as stated is false: at difficulty 0 the loop exits before ever
computing a hash, so the returned block's stored hash (still `""`) does
not equal its recomputed hash. -/
theorem C1_counterexample :
    Block.mine_block demoHash 0 1 freshBlock = some (freshBlock, 0) ∧
    freshBlock.hash ≠ freshBlock.calculate_hash demoHash :=
  ⟨by decide, by decide⟩

/-- C8 (amended): at difficulty 0 the mining loop performs zero hash
computations — the empty target is already matched by the initial hash's
empty prefix — and returns with the block, in particular its nonce and
its stored hash, unchanged. -/
theorem C8_difficulty_zero (H : HashFn) (fuel : Nat) (b : Block) :
    b.mine_block H 0 (fuel + 1) = some (b, 0) := by
  rw [Block.mine_block, mineAux,
    if_pos (show pySlice b.hash 0 = pyTarget 0 from rfl)]

/-- C8 as stated is false: on a fresh block at difficulty 0 the number of
`calculate_hash` calls is 0, not 1. -/
theorem C8_counterexample :
    (Block.mine_block demoHash 0 5 freshBlock).map Prod.snd = some 0 ∧
    (Block.mine_block demoHash 0 5 freshBlock).map Prod.snd ≠ some 1 :=
  ⟨by decide, by decide⟩

/-- C10: contrary to the spec, `mine_block` does not fail fast on a
negative difficulty. On a fresh block (`hash=""`) it returns silently at
once: Python's `'0' * (-1)` is `""` and `""[:-1]` is `""`, so the loop
guard is immediately false; no exception is raised, the nonce stays 0
and no hash is computed. (On a block whose stored hash has length ≥ 2
the guard can never become false and the loop runs forever — either way
the promised error is never raised.) -/
theorem C10_negative_difficulty_returns_silently :
    Block.mine_block demoHash (-1) 1 freshBlock = some (freshBlock, 0) := by
  decide

/-! ## C2: the admission pipeline of add_transaction -/

/-- C2: `add_transaction` applies its checks in order — a `"Network"`
sender is appended unconditionally (no signature or balance check can
interfere, whatever the verifier `V` says); otherwise a failed signature
check rejects, then an insufficient balance rejects, and otherwise the
transaction is appended. The chain is never touched, and a rejection
returns the ledger exactly as it was (the embedding is a total function:
no exception is raised on any path). -/
theorem C2_add_transaction_pipeline (V : VerifierFn) (bc : Blockchain)
    (tx : Transaction) :
    (bc.add_transaction V tx).chain = bc.chain ∧
    (tx.sender_address = "Network" →
      bc.add_transaction V tx = { bc with mempool := bc.mempool ++ [tx] }) ∧
    (tx.sender_address ≠ "Network" → tx.verify_signature V = false →
      bc.add_transaction V tx = bc) ∧
    (tx.sender_address ≠ "Network" → tx.verify_signature V = true →
      bc.get_balance tx.sender_address < tx.amount →
      bc.add_transaction V tx = bc) ∧
    (tx.sender_address ≠ "Network" → tx.verify_signature V = true →
      ¬ bc.get_balance tx.sender_address < tx.amount →
      bc.add_transaction V tx = { bc with mempool := bc.mempool ++ [tx] }) := by
  refine ⟨?_, ?_, ?_, ?_, ?_⟩
  · rw [Blockchain.add_transaction]
    split
    · rfl
    · split
      · rfl
      · split
        · rfl
        · rfl
  · intro h
    rw [Blockchain.add_transaction, if_pos h]
  · intro hn hv
    rw [Blockchain.add_transaction, if_neg hn, if_pos (by simp [hv])]
  · intro hn hv hlt
    rw [Blockchain.add_transaction, if_neg hn, if_neg (by simp [hv]),
      if_pos hlt]
  · intro hn hv hge
    rw [Blockchain.add_transaction, if_neg hn, if_neg (by simp [hv]),
      if_neg hge]

/-- A verifier that rejects everything; used to show the `"Network"`
bypass really ignores the verifier. -/
def demoVerifier : VerifierFn := fun _ _ _ => false

/-- A reward-shaped transaction. -/
def txNet : Transaction :=
  { sender_address := "Network"
    recipient_address := "miner1"
    amount := 50
    signature := none }

/-- An unsigned user transaction, rejected by the signature check. -/
def txUnsigned : Transaction :=
  { sender_address := "alice"
    recipient_address := "bob"
    amount := 5
    signature := none }

/-- An empty ledger at difficulty 0. -/
def emptyLedger : Blockchain :=
  { chain := [], difficulty := 0, mempool := [], block_reward := 50 }

theorem C2_witness :
    (txNet.sender_address = "Network" ∧
      emptyLedger.add_transaction demoVerifier txNet =
        { emptyLedger with mempool := emptyLedger.mempool ++ [txNet] }) ∧
    (txUnsigned.sender_address ≠ "Network" ∧
      txUnsigned.verify_signature demoVerifier = false ∧
      emptyLedger.add_transaction demoVerifier txUnsigned = emptyLedger) :=
  ⟨⟨rfl, (C2_add_transaction_pipeline demoVerifier emptyLedger txNet).2.1 rfl⟩,
   ⟨by decide, by decide,
    (C2_add_transaction_pipeline demoVerifier emptyLedger txUnsigned).2.2.1
      (by decide) (by decide)⟩⟩

/-! ## C4: balances are derived by a fold over the chain -/

/-- Every transaction of every block of the chain, in order. -/
def allTxs (bc : Blockchain) : List Transaction :=
  (bc.chain.map Block.transactions).flatten

/-- The sum of the amounts received by `a` in a transaction list. -/
def receivedSum : List Transaction → String → Rat
  | [], _ => 0
  | tx :: txs, a =>
    (if tx.recipient_address = a then tx.amount else 0) + receivedSum txs a

/-- The sum of the amounts sent by `a` in a transaction list. -/
def sentSum : List Transaction → String → Rat
  | [], _ => 0
  | tx :: txs, a =>
    (if tx.sender_address = a then tx.amount else 0) + sentSum txs a

theorem balanceStep_eq (a : String) (acc : Rat) (tx : Transaction) :
    balanceStep a acc tx =
      acc + (if tx.recipient_address = a then tx.amount else 0) -
        (if tx.sender_address = a then tx.amount else 0) := by
  rw [balanceStep]
  split <;> split <;> ring

theorem foldl_balanceStep (a : String) :
    ∀ (txs : List Transaction) (acc : Rat),
      txs.foldl (balanceStep a) acc = acc + receivedSum txs a - sentSum txs a := by
  intro txs
  induction txs with
  | nil => intro acc; simp [receivedSum, sentSum]
  | cons tx txs ih =>
    intro acc
    rw [List.foldl_cons, ih, balanceStep_eq, receivedSum, sentSum]
    ring

theorem foldl_blocks_balance (a : String) :
    ∀ (blocks : List Block) (acc : Rat),
      blocks.foldl (fun acc b => b.transactions.foldl (balanceStep a) acc) acc =
        acc + receivedSum (blocks.map Block.transactions).flatten a -
          sentSum (blocks.map Block.transactions).flatten a := by
  intro blocks
  induction blocks with
  | nil => intro acc; simp [receivedSum, sentSum]
  | cons b blocks ih =>
    intro acc
    rw [List.foldl_cons, ih, foldl_balanceStep]
    have happ : ∀ (l r : List Transaction),
        receivedSum (l ++ r) a = receivedSum l a + receivedSum r a ∧
        sentSum (l ++ r) a = sentSum l a + sentSum r a := by
      intro l r
      induction l with
      | nil => simp [receivedSum, sentSum]
      | cons t l ihl =>
        simp only [List.cons_append, receivedSum, sentSum, List.append_eq,
          ihl.1, ihl.2]
        constructor <;> ring
    rw [List.map_cons, List.flatten_cons, (happ _ _).1, (happ _ _).2]
    ring

/-- C4: `get_balance(a)` is the sum over every transaction in every block
of the chain of the amounts received by `a` minus the amounts sent by
`a`; the mempool contributes nothing (replacing it by anything leaves
every balance unchanged). -/
theorem C4_get_balance_derived (bc : Blockchain) (a : String) :
    bc.get_balance a = receivedSum (allTxs bc) a - sentSum (allTxs bc) a ∧
    ∀ m : List Transaction,
      Blockchain.get_balance { bc with mempool := m } a = bc.get_balance a := by
  constructor
  · rw [Blockchain.get_balance, foldl_blocks_balance, allTxs]
    ring
  · intro m
    rfl

/-! ## C3: mine_pending_transactions always mines one block -/

/-- The `"Network"` fast path of `add_transaction`, shared by the proofs
about the admission pipeline and about mining. -/
theorem add_transaction_network (V : VerifierFn) (bc : Blockchain)
    (tx : Transaction) (h : tx.sender_address = "Network") :
    bc.add_transaction V tx = { bc with mempool := bc.mempool ++ [tx] } := by
  rw [Blockchain.add_transaction, if_pos h]

/-- C3: on a non-empty chain, a successful `mine_pending_transactions`
appends exactly one block whose index is the previous chain length,
whose transactions are the previous mempool followed by the reward
transaction (so a reward is mined even out of an empty mempool — the
`"No transactions to mine"` early return is unreachable once the reward
has been admitted), and whose `prev_hash` is the previous last block's
hash; afterwards the mempool is empty. -/
theorem C3_mine_pending_appends_block (H : HashFn) (V : VerifierFn)
    (fuel : Nat) (bc : Blockchain) (miner ts : String) (bc' : Blockchain)
    (hne : bc.chain ≠ [])
    (h : bc.mine_pending_transactions H V fuel miner ts = some bc') :
    ∃ mined : Block,
      bc'.chain = bc.chain ++ [mined] ∧
      mined.index = bc.chain.length ∧
      mined.transactions = bc.mempool ++ [reward_tx bc miner] ∧
      mined.prev_hash = (bc.chain.getLast hne).hash ∧
      bc'.mempool = [] ∧
      bc'.difficulty = bc.difficulty ∧
      bc'.block_reward = bc.block_reward := by
  rw [Blockchain.mine_pending_transactions] at h
  rw [add_transaction_network V bc (reward_tx bc miner) rfl] at h
  dsimp only at h
  rw [if_neg (by simp)] at h
  rw [List.getLast?_eq_getLast bc.chain hne] at h
  dsimp only at h
  split at h
  · cases h
  · rename_i mined calls heq
    obtain ⟨hidx, htxs, hts, hprev⟩ :=
      mineAux_fields H (bc.difficulty : Int) fuel _ 0 mined calls heq
    injection h with h'
    refine ⟨mined, ?_, ?_, ?_, ?_, ?_, ?_, ?_⟩ <;>
      simp [← h', hidx, htxs, hprev]

/-- A mined genesis-style block to build concrete ledgers on. -/
def genesisDemo : Block :=
  { index := 0
    transactions := []
    timestamp := "2024-01-01T00:00:00+00:00"
    prev_hash := "0"
    nonce := 0
    hash := "deadbeef" }

/-- A one-block ledger at difficulty 0 with an empty mempool. -/
def oneBlockLedger : Blockchain :=
  { chain := [genesisDemo], difficulty := 0, mempool := [], block_reward := 50 }

/-- The reward-only block that mining `oneBlockLedger` at difficulty 0
produces. -/
def rewardBlockW : Block :=
  { index := 1
    transactions := [reward_tx oneBlockLedger "miner1"]
    timestamp := "2024-01-01T00:01:00+00:00"
    prev_hash := "deadbeef"
    nonce := 0
    hash := "" }

def minedLedgerW : Blockchain :=
  { chain := [genesisDemo, rewardBlockW]
    difficulty := 0
    mempool := []
    block_reward := 50 }

theorem C3_witness :
    (oneBlockLedger.chain ≠ [] ∧
      oneBlockLedger.mine_pending_transactions demoHash demoVerifier 1
          "miner1" "2024-01-01T00:01:00+00:00" = some minedLedgerW) ∧
    (∃ mined : Block,
      minedLedgerW.chain = oneBlockLedger.chain ++ [mined] ∧
      mined.index = oneBlockLedger.chain.length ∧
      mined.transactions =
        oneBlockLedger.mempool ++ [reward_tx oneBlockLedger "miner1"] ∧
      mined.prev_hash = (oneBlockLedger.chain.getLast (by decide)).hash ∧
      minedLedgerW.mempool = [] ∧
      minedLedgerW.difficulty = oneBlockLedger.difficulty ∧
      minedLedgerW.block_reward = oneBlockLedger.block_reward) :=
  ⟨⟨by decide, by decide⟩,
   C3_mine_pending_appends_block demoHash demoVerifier 1 oneBlockLedger
     "miner1" "2024-01-01T00:01:00+00:00" minedLedgerW (by decide) (by decide)⟩

/-! ## C5: what is_chain_valid does and does not check -/

theorem validFrom_all (H : HashFn) (d : Nat) :
    ∀ (rest : List Block) (prev : Block),
      prev.hash = prev.calculate_hash H →
      (∀ b ∈ rest, b.hash = b.calculate_hash H) →
      (∀ b ∈ rest, pyStartswith b.hash (pyTarget (d : Int)) = true) →
      validFrom H d prev rest = true := by
  intro rest
  induction rest with
  | nil => intro prev _ _ _; rfl
  | cons c rest ih =>
    intro prev hprev hall hdiff
    have hc : c.hash = c.calculate_hash H := hall c (List.mem_cons_self c rest)
    rw [validFrom, if_neg (by simp [hc]), if_neg (by simp [hprev]),
      if_neg (by simp [hdiff c (List.mem_cons_self c rest)])]
    exact ih c hc (fun b hb => hall b (List.mem_cons_of_mem c hb))
      (fun b hb => hdiff b (List.mem_cons_of_mem c hb))

/-- C5: `is_chain_valid` returns true for every chain whose blocks all
have a stored hash equal to their recomputed hash and whose blocks past
the first satisfy the difficulty prefix — the hash link
`chain[i].prev_hash == chain[i-1].hash` is nowhere among the checks
(nothing in the hypotheses constrains any `prev_hash` field) — and every
chain of length 0 or 1 is valid regardless of its contents. -/
theorem C5_is_chain_valid_checks (H : HashFn) (bc : Blockchain) :
    ((∀ b ∈ bc.chain, b.hash = b.calculate_hash H) →
      (∀ b ∈ bc.chain.tail,
        pyStartswith b.hash (pyTarget (bc.difficulty : Int)) = true) →
      bc.is_chain_valid H = true) ∧
    (bc.chain.length ≤ 1 → bc.is_chain_valid H = true) := by
  constructor
  · intro hhash hdiff
    rw [Blockchain.is_chain_valid]
    cases hc : bc.chain with
    | nil => rfl
    | cons b rest =>
      apply validFrom_all
      · exact hhash b (by rw [hc]; exact List.mem_cons_self b rest)
      · intro x hx
        exact hhash x (by rw [hc]; exact List.mem_cons_of_mem b hx)
      · intro x hx
        exact hdiff x (by rw [hc]; exact hx)
  · intro hlen
    rw [Blockchain.is_chain_valid]
    cases hc : bc.chain with
    | nil => rfl
    | cons b rest =>
      cases rest with
      | nil => rfl
      | cons c rest' =>
        exfalso
        rw [hc] at hlen
        simp at hlen

/-- A block whose stored hash matches `zeroHash` and passes difficulty 2. -/
def blkA : Block :=
  { index := 0
    transactions := []
    timestamp := "2024-01-01T00:00:00+00:00"
    prev_hash := "0"
    nonce := 0
    hash := "00000000" }

/-- A second such block whose `prev_hash` does NOT equal `blkA.hash`. -/
def blkB : Block :=
  { index := 1
    transactions := []
    timestamp := "2024-01-01T00:01:00+00:00"
    prev_hash := "BROKEN-LINK"
    nonce := 7
    hash := "00000000" }

def brokenLinkLedger : Blockchain :=
  { chain := [blkA, blkB], difficulty := 2, mempool := [], block_reward := 50 }

theorem C5_witness :
    (∀ b ∈ brokenLinkLedger.chain, b.hash = b.calculate_hash zeroHash) ∧
    (∀ b ∈ brokenLinkLedger.chain.tail,
      pyStartswith b.hash (pyTarget (brokenLinkLedger.difficulty : Int)) = true) ∧
    blkB.prev_hash ≠ blkA.hash ∧
    brokenLinkLedger.is_chain_valid zeroHash = true :=
  ⟨by decide, by decide, by decide,
   (C5_is_chain_valid_checks zeroHash brokenLinkLedger).1 (by decide) (by decide)⟩

/-! ## C6: serialization round trip -/

theorem hexVal_hexDigit : ∀ i : Fin 16, hexVal (hexDigit i) = some i := by
  decide

theorem hexCharsToBytes_flatMap :
    ∀ bs : List (Fin 256), hexCharsToBytes (bs.flatMap byteHexChars) = some bs := by
  intro bs
  induction bs with
  | nil => rfl
  | cons b bs ih =>
    simp only [List.flatMap_cons, byteHexChars, List.cons_append,
      List.nil_append]
    rw [hexCharsToBytes]
    simp only [hexVal_hexDigit, Option.bind_eq_bind, Option.some_bind, ih]
    exact congrArg some (congrArg (· :: bs)
      (Fin.ext (show b.val / 16 * 16 + b.val % 16 = b.val by omega)))

theorem bytesFromHex_bytesHex (bs : List (Fin 256)) :
    bytesFromHex (bytesHex bs) = some bs :=
  hexCharsToBytes_flatMap bs

theorem bytesHex_ne_empty (b : Fin 256) (bs : List (Fin 256)) :
    bytesHex (b :: bs) ≠ "" := by
  intro h
  have hd := congrArg String.data h
  simp [bytesHex, byteHexChars] at hd

/-- Reading back a serialized transaction recovers it, as long as its
signature is not the empty byte string (which Python truthiness
serializes to null). -/
theorem txFromDict_to_dict (tx : Transaction) (h : tx.signature ≠ some []) :
    txFromDict tx.to_dict = some tx := by
  cases htx : tx.signature with
  | none =>
    cases tx with
    | mk s r a sg =>
      simp only at htx
      subst htx
      rfl
  | some bs =>
    cases bs with
    | nil => exact absurd htx h
    | cons b rest =>
      cases tx with
      | mk s r a sg =>
        simp only at htx
        subst htx
        rw [Transaction.to_dict]
        simp only [List.cons_ne_self, if_neg (List.cons_ne_nil b rest)]
        rw [txFromDict]
        simp only [if_neg (bytesHex_ne_empty b rest), bytesFromHex_bytesHex]
        rfl

theorem mapM_map_some {α β : Type} (f : α → β) (g : β → Option α)
    (l : List α) (h : ∀ a ∈ l, g (f a) = some a) :
    (l.map f).mapM g = some l := by
  induction l with
  | nil => rfl
  | cons a l ih =>
    rw [List.map_cons, List.mapM_cons, h a (List.mem_cons_self a l),
      ih (fun x hx => h x (List.mem_cons_of_mem a hx))]
    rfl

/-- Reading back a serialized block recovers it. -/
theorem blockFromDict_to_dict (b : Block)
    (h : ∀ tx ∈ b.transactions, tx.signature ≠ some []) :
    blockFromDict
      { index := b.index
        transactions := b.transactions.map Transaction.to_dict
        timestamp := b.timestamp
        prev_hash := b.prev_hash
        nonce := b.nonce
        hash := b.hash } = some b := by
  rw [blockFromDict]
  dsimp only
  rw [mapM_map_some Transaction.to_dict txFromDict b.transactions
    (fun tx htx => txFromDict_to_dict tx (h tx htx))]
  rfl

/-- C6 (amended): serialization round-trips exactly — field by field, for
the chain (each block's index, transactions, timestamp, prev_hash, nonce
and hash), the difficulty, the mempool and the block reward — for every
ledger in which no transaction carries the *empty* byte string as its
signature. (An empty-bytes signature is falsy in Python, gets serialized
as null, and deserializes to an absent signature.) -/
theorem C6_round_trip (bc : Blockchain)
    (hchain : ∀ b ∈ bc.chain, ∀ tx ∈ b.transactions, tx.signature ≠ some [])
    (hmem : ∀ tx ∈ bc.mempool, tx.signature ≠ some []) :
    Blockchain.from_dict bc.to_dict = some bc := by
  rw [Blockchain.from_dict, Blockchain.to_dict]
  dsimp only
  rw [mapM_map_some _ blockFromDict bc.chain
    (fun b hb => blockFromDict_to_dict b (hchain b hb))]
  rw [mapM_map_some Transaction.to_dict txFromDict bc.mempool
    (fun tx htx => txFromDict_to_dict tx (hmem tx htx))]
  rfl

/-- A transaction carrying `signature = b''`. -/
def emptySigTx : Transaction :=
  { sender_address := "alice"
    recipient_address := "bob"
    amount := 5
    signature := some [] }

def emptySigLedger : Blockchain :=
  { chain := [], difficulty := 3, mempool := [emptySigTx], block_reward := 50 }

/-- C6 as stated is false: a ledger holding a transaction whose signature
is the empty byte string does not survive the round trip (it comes back
with no signature at all). -/
theorem C6_counterexample :
    Blockchain.from_dict emptySigLedger.to_dict ≠ some emptySigLedger := by
  decide

/-- A signed transaction with the two-byte signature `ab cd`. -/
def signedTx : Transaction :=
  { sender_address := "alice"
    recipient_address := "bob"
    amount := 5
    signature := some [171, 205] }

def roundTripLedger : Blockchain :=
  { chain :=
      [{ index := 0
         transactions := [signedTx]
         timestamp := "2024-01-01T00:00:00+00:00"
         prev_hash := "0"
         nonce := 2
         hash := "00aabb" }]
    difficulty := 2
    mempool := [txUnsigned]
    block_reward := 50 }

theorem C6_witness :
    (∀ b ∈ roundTripLedger.chain, ∀ tx ∈ b.transactions,
      tx.signature ≠ some []) ∧
    (∀ tx ∈ roundTripLedger.mempool, tx.signature ≠ some []) ∧
    Blockchain.from_dict roundTripLedger.to_dict = some roundTripLedger :=
  ⟨by decide, by decide, C6_round_trip roundTripLedger (by decide) (by decide)⟩

/-! ## C7: balance conservation -/

/-- `a` appears in the chain as a sender or recipient of some mined
transaction. -/
def appearsIn (bc : Blockchain) (a : String) : Prop :=
  ∃ tx ∈ allTxs bc, tx.sender_address = a ∨ tx.recipient_address = a

/-- The total amount of the reward transactions (sender `"Network"`) in a
transaction list. -/
def rewardSum : List Transaction → Rat
  | [] => 0
  | tx :: txs =>
    (if tx.sender_address = "Network" then tx.amount else 0) + rewardSum txs

theorem sum_map_indicator (x : String) (q : Rat) :
    ∀ l : List String, l.Nodup →
      (l.map (fun a => if x = a then q else 0)).sum = if x ∈ l then q else 0 := by
  intro l
  induction l with
  | nil => simp
  | cons a l ih =>
    intro hnd
    obtain ⟨hal, hl⟩ := List.nodup_cons.mp hnd
    rw [List.map_cons, List.sum_cons, ih hl]
    by_cases hxa : x = a
    · subst hxa
      simp [hal]
    · simp [hxa, List.mem_cons]

theorem sum_map_add_pointwise (l : List String) (f g : String → Rat) :
    (l.map (fun a => f a + g a)).sum = (l.map f).sum + (l.map g).sum := by
  induction l with
  | nil => simp
  | cons a l ih =>
    simp only [List.map_cons, List.sum_cons, ih]
    ring

theorem sum_map_sub_pointwise (l : List String) (f g : String → Rat) :
    (l.map (fun a => f a - g a)).sum = (l.map f).sum - (l.map g).sum := by
  induction l with
  | nil => simp
  | cons a l ih =>
    simp only [List.map_cons, List.sum_cons, ih]
    ring

/-- The conservation argument over a bare transaction list: if every
recipient is one of the (distinct, non-`"Network"`) tracked addresses
and every non-`"Network"` sender is tracked too, the tracked balances
sum to the rewards. -/
theorem sum_balances_eq_rewardSum (addrs : List String) (hnd : addrs.Nodup)
    (hnet : "Network" ∉ addrs) :
    ∀ txs : List Transaction,
      (∀ tx ∈ txs, tx.recipient_address ∈ addrs) →
      (∀ tx ∈ txs, tx.sender_address ≠ "Network" → tx.sender_address ∈ addrs) →
      (addrs.map (fun a => receivedSum txs a - sentSum txs a)).sum =
        rewardSum txs := by
  intro txs
  induction txs with
  | nil =>
    intro _ _
    simp [receivedSum, sentSum, rewardSum]
  | cons tx txs ih =>
    intro hrec hsend
    have hrx : tx.recipient_address ∈ addrs :=
      hrec tx (List.mem_cons_self tx txs)
    have hmap : (addrs.map
        (fun a => receivedSum (tx :: txs) a - sentSum (tx :: txs) a)) =
        addrs.map (fun a =>
          ((if tx.recipient_address = a then tx.amount else 0) -
            (if tx.sender_address = a then tx.amount else 0)) +
          (receivedSum txs a - sentSum txs a)) := by
      apply List.map_congr_left
      intro a _
      rw [receivedSum, sentSum]
      ring
    rw [hmap, sum_map_add_pointwise, sum_map_sub_pointwise,
      sum_map_indicator _ _ addrs hnd, sum_map_indicator _ _ addrs hnd,
      ih (fun t ht => hrec t (List.mem_cons_of_mem tx ht))
        (fun t ht => hsend t (List.mem_cons_of_mem tx ht)),
      if_pos hrx, rewardSum]
    by_cases hs : tx.sender_address = "Network"
    · rw [if_pos hs, if_neg (by rw [hs]; exact hnet)]
      ring
    · rw [if_neg hs, if_pos (hsend tx (List.mem_cons_self tx txs) hs)]
      ring

/-- C7: over the addresses that ever appear in the chain as a sender or
recipient (the `"Network"` identity is a reserved sentinel, not an
address), the balances sum to the total of all mined reward amounts,
provided the chain is internally generated (no transaction pays *to* the
`"Network"` sentinel). -/
theorem C7_balance_conservation (bc : Blockchain) (addrs : List String)
    (hnd : addrs.Nodup)
    (hchar : ∀ a : String, a ∈ addrs ↔ (a ≠ "Network" ∧ appearsIn bc a))
    (hinternal : ∀ tx ∈ allTxs bc, tx.recipient_address ≠ "Network") :
    (addrs.map bc.get_balance).sum = rewardSum (allTxs bc) := by
  have hnet : "Network" ∉ addrs := fun hm => ((hchar "Network").mp hm).1 rfl
  have hbal : ∀ a ∈ addrs,
      bc.get_balance a = receivedSum (allTxs bc) a - sentSum (allTxs bc) a := by
    intro a _
    rw [Blockchain.get_balance, foldl_blocks_balance, allTxs]
    ring
  rw [List.map_congr_left hbal]
  exact sum_balances_eq_rewardSum addrs hnd hnet (allTxs bc)
    (fun tx htx =>
      (hchar tx.recipient_address).mpr
        ⟨hinternal tx htx, tx, htx, Or.inr rfl⟩)
    (fun tx htx hne =>
      (hchar tx.sender_address).mpr ⟨hne, tx, htx, Or.inl rfl⟩)

/-- A one-block ledger holding exactly one mined reward transaction. -/
def rewardOnlyLedger : Blockchain :=
  { chain :=
      [{ index := 0
         transactions := [txNet]
         timestamp := "2024-01-01T00:00:00+00:00"
         prev_hash := "0"
         nonce := 0
         hash := "deadbeef" }]
    difficulty := 0
    mempool := []
    block_reward := 50 }

theorem rewardOnlyLedger_appearing :
    ∀ a : String,
      a ∈ ["miner1"] ↔ (a ≠ "Network" ∧ appearsIn rewardOnlyLedger a) := by
  intro a
  constructor
  · intro ha
    have haeq : a = "miner1" := by simpa using ha
    subst haeq
    exact ⟨by decide, txNet, by decide, Or.inr rfl⟩
  · rintro ⟨hne, tx, htx, hor⟩
    have htxeq : tx = txNet := by
      simpa [allTxs, rewardOnlyLedger] using htx
    subst htxeq
    rcases hor with hs | hr
    · exact absurd hs.symm hne
    · simp [← hr, txNet]

theorem C7_witness :
    (["miner1"] : List String).Nodup ∧
    (∀ a : String,
      a ∈ ["miner1"] ↔ (a ≠ "Network" ∧ appearsIn rewardOnlyLedger a)) ∧
    (∀ tx ∈ allTxs rewardOnlyLedger, tx.recipient_address ≠ "Network") ∧
    ((["miner1"] : List String).map rewardOnlyLedger.get_balance).sum =
      rewardSum (allTxs rewardOnlyLedger) :=
  ⟨by decide, rewardOnlyLedger_appearing, by decide,
   C7_balance_conservation rewardOnlyLedger ["miner1"] (by decide)
     rewardOnlyLedger_appearing (by decide)⟩

/-! ## C9: verify_signature on malformed input -/

/-- The Python exception classes relevant to `verify_signature`'s
`try/except (InvalidSignature, ValueError)` handler. `otherExn` stands
for any exception outside the two caught classes. -/
inductive PyExn where
  | invalidSignature : PyExn
  | valueError : PyExn
  | otherExn : String → PyExn
deriving DecidableEq, Repr

/-- The body of the `try` in `verify_signature`:
`load_pem_public_key(sender_address)` followed by
`public_key.verify(signature, data, ECDSA(SHA256()))`, each of which may
raise. `K` is the (abstract) public-key type of the crypto library. -/
def tryVerifyBody {K : Type} (load : String → Except PyExn K)
    (verify : K → List (Fin 256) → TxCore → Except PyExn Unit)
    (tx : Transaction) (sig : List (Fin 256)) : Except PyExn Unit :=
  load tx.sender_address >>= fun public_key =>
    verify public_key sig tx.to_dict_nosig

/-- `Transaction.verify_signature` with the exception flow made explicit:
`"Network"` short-circuits to true, a missing signature returns false,
and the `try` body's `InvalidSignature` and `ValueError` are caught and
turned into false; any other exception propagates (`Except.error`). -/
def Transaction.verify_signature_exc {K : Type}
    (load : String → Except PyExn K)
    (verify : K → List (Fin 256) → TxCore → Except PyExn Unit)
    (tx : Transaction) : Except PyExn Bool :=
  if tx.sender_address = "Network" then .ok true
  else
    match tx.signature with
    | none => .ok false
    | some sig =>
      match tryVerifyBody load verify tx sig with
      | .ok _ => .ok true
      | .error PyExn.invalidSignature => .ok false
      | .error PyExn.valueError => .ok false
      | .error e => .error e

/-- C9: whenever the cryptographic library signals malformed input the
way it does for non-PEM/malformed key material and malformed signature
bytes — by raising `ValueError` or `InvalidSignature` — the
`verify_signature` call returns normally, and rejections driven by such
an exception return `False`, not an error. (Paths that never enter the
`try` — a `"Network"` sender or an absent signature — return normally
as well.) -/
theorem C9_verify_signature_no_raise {K : Type}
    (load : String → Except PyExn K)
    (verify : K → List (Fin 256) → TxCore → Except PyExn Unit)
    (tx : Transaction)
    (hmal : ∀ sig, tx.signature = some sig →
      ∀ e, tryVerifyBody load verify tx sig = Except.error e →
        e = PyExn.invalidSignature ∨ e = PyExn.valueError) :
    (∃ r : Bool, tx.verify_signature_exc load verify = .ok r) ∧
    (∀ sig, tx.signature = some sig → tx.sender_address ≠ "Network" →
      ∀ e, tryVerifyBody load verify tx sig = Except.error e →
        tx.verify_signature_exc load verify = .ok false) := by
  rw [Transaction.verify_signature_exc]
  by_cases hn : tx.sender_address = "Network"
  · rw [if_pos hn]
    exact ⟨⟨true, rfl⟩, fun _ _ hne => absurd hn hne⟩
  · rw [if_neg hn]
    cases hsig : tx.signature with
    | none =>
      exact ⟨⟨false, rfl⟩, fun sig hs => absurd hs (by simp)⟩
    | some sig =>
      dsimp only
      cases hbody : tryVerifyBody load verify tx sig with
      | ok u =>
        refine ⟨⟨true, rfl⟩, ?_⟩
        intro sig' hs hne e he
        cases hs
        rw [hbody] at he
        cases he
      | error e =>
        rcases hmal sig hsig e hbody with he2 | he2 <;> subst he2 <;>
          exact ⟨⟨false, rfl⟩, fun _ _ _ _ _ => rfl⟩

/-- A sender string that is not a valid PEM key: loading it raises
`ValueError`. -/
def failLoad : String → Except PyExn Unit := fun _ => .error PyExn.valueError

def okVerify : Unit → List (Fin 256) → TxCore → Except PyExn Unit :=
  fun _ _ _ => .ok ()

/-- A signed transaction whose sender field holds non-PEM garbage. -/
def malformedTx : Transaction :=
  { sender_address := "not a pem key"
    recipient_address := "bob"
    amount := 1
    signature := some [1, 2] }

theorem C9_witness :
    malformedTx.verify_signature_exc failLoad okVerify = Except.ok false ∧
    ((∃ r : Bool,
        malformedTx.verify_signature_exc failLoad okVerify = Except.ok r) ∧
      (∀ sig, malformedTx.signature = some sig →
        malformedTx.sender_address ≠ "Network" →
        ∀ e,
          tryVerifyBody failLoad okVerify malformedTx sig = Except.error e →
          malformedTx.verify_signature_exc failLoad okVerify =
            Except.ok false)) :=
  ⟨rfl,
   C9_verify_signature_no_raise failLoad okVerify malformedTx
     (fun sig hs e he => Or.inr (by
       simp only [tryVerifyBody, failLoad, Bind.bind, Except.bind,
         Except.error.injEq] at he
       exact he.symm))⟩

end BtcLight
